import Mathlib

/-!
Verification development for the imdb_movie_buddy repository.

Strings and byte buffers are embedded as `List Nat` of code points / byte
values.  The embedding covers the ASCII fragment of Python's `str.lower`,
`\w`, `\s` character classes (all concrete inputs appearing in the claims
are ASCII, apart from the curled apostrophe U+2019 which is handled
explicitly, as in the source).
-/

namespace IMB

/-- Code points of a string literal, used to write concrete inputs. -/
def strL (s : String) : List Nat := s.data.map Char.toNat

/-- Python `\s` (ASCII fragment): space and the control whitespace 9–13. -/
def isSpaceB (c : Nat) : Bool := c == 32 || (9 ≤ c && c ≤ 13)

/-- ASCII decimal digit. -/
def isDigitB (c : Nat) : Bool := 48 ≤ c && c ≤ 57

/-- Python `\w` (ASCII fragment): alphanumerics and the underscore. -/
def isWordB (c : Nat) : Bool :=
  isDigitB c || (65 ≤ c && c ≤ 90) || (97 ≤ c && c ≤ 122) || c == 95

/-- Python `str.lower` on a single code point (ASCII fragment). -/
def pyLower (c : Nat) : Nat := if 65 ≤ c ∧ c ≤ 90 then c + 32 else c

/-- Python `str.replace(old, new)` for a single-character pattern `old`. -/
def replaceByte (old : Nat) (rep : List Nat) (l : List Nat) : List Nat :=
  l.flatMap (fun c => if c = old then rep else [c])

/-- `re.sub(r'[^\w\s]', ' ', s)` as a per-character map. -/
def punctToSpace (c : Nat) : Nat := if isWordB c || isSpaceB c then c else 32

/-- State-machine form of `re.sub(r'\s+', ' ', s)`: the flag records whether
we are inside a whitespace run that has already emitted its single space. -/
def collapseGo (inRun : Bool) : List Nat → List Nat
  | [] => []
  | c :: r =>
    if isSpaceB c then
      if inRun then collapseGo true r else 32 :: collapseGo true r
    else c :: collapseGo false r

/-- `re.sub(r'\s+', ' ', s)`: replace each whitespace run by one space. -/
def collapseWs (l : List Nat) : List Nat := collapseGo false l

/-- Remove the trailing whitespace run (the right half of `str.strip()`). -/
def dropTrail : List Nat → List Nat
  | [] => []
  | c :: r =>
    match dropTrail r with
    | [] => if isSpaceB c then [] else [c]
    | t => c :: t

/-- Python `str.strip()`: drop leading and trailing whitespace. -/
def pyStrip (l : List Nat) : List Nat := dropTrail (l.dropWhile isSpaceB)

/-- The replacement text `"and"`. -/
def andW : List Nat := [97, 110, 100]

/-- The character-level pipeline of `_normalize` (torrent_utils.py lines
9–11): lowercase, `&`/`+` → `"and"`, strip straight (39) and curled (8217)
apostrophes, turn remaining non-word non-space characters into spaces. -/
def normChars (s : List Nat) : List Nat :=
  List.map punctToSpace
    (replaceByte 8217 [] (replaceByte 39 []
      (replaceByte 43 andW (replaceByte 38 andW (List.map pyLower s)))))

/-- `_normalize` from `torrent_utils.py` lines 7–12: the character pipeline
followed by collapsing whitespace runs and stripping (line 12). -/
def normalize (s : List Nat) : List Nat :=
  pyStrip (collapseWs (normChars s))

example : normalize (strL "Movie.Title.2020.1080p.x265-GRP") =
    strL "movie title 2020 1080p x265 grp" := by decide

example : normalize (strL "  Bill & Ted's  Day_Off! ") =
    strL "bill and teds day_off" := by decide

/-- One step of `str.split()`: accumulate the current word (reversed). -/
def splitGo (cur : List Nat) : List Nat → List (List Nat)
  | [] => if cur = [] then [] else [cur.reverse]
  | c :: r =>
    if isSpaceB c then
      if cur = [] then splitGo [] r else cur.reverse :: splitGo [] r
    else splitGo (c :: cur) r

/-- Python `str.split()` with no argument: split on whitespace runs,
dropping empty pieces. -/
def pySplit (l : List Nat) : List (List Nat) := splitGo [] l

/-- `' '.join(ws)`. -/
def joinSp (ws : List (List Nat)) : List Nat := List.intercalate [32] ws

/-- `re.sub(r'\s+', '', s)`: delete every whitespace character. -/
def removeWs (l : List Nat) : List Nat := l.filter (fun c => !isSpaceB c)

/-- Decimal text of an integer, as code points (`str(yr)`). -/
def intStr (i : Int) : List Nat := strL (toString i)

/-- Word-character test at an index, `False` outside the string (models the
virtual non-word character beyond either end for `\b`). -/
def wordAt (l : List Nat) (i : Nat) : Bool :=
  match l.get? i with
  | some c => isWordB c
  | none => false

/-- Does `re.search(r'\b<pat>\b', l)` match at index `i`?  The literal `pat`
must occur at `i` and both ends must sit on a word/non-word transition. -/
def matchBAt (pat l : List Nat) (i : Nat) : Bool :=
  ((l.drop i).take pat.length == pat) &&
  ((if i == 0 then false else wordAt l (i - 1)) != isWordB (pat.headD 0)) &&
  (wordAt l (i + pat.length) != isWordB (pat.getLastD 0))

/-- `re.search(r'\b<pat>\b', l)`: index of the leftmost match, if any. -/
def findBdd (pat l : List Nat) : Option Nat :=
  (List.range (l.length + 1)).find? (matchBAt pat l)

/-- The body of the year loop in `title_matches` (torrent_utils.py lines
25–35): anchor on the year token `yr`, take the prefix before it as the
torrent's title portion, and compare exactly / as a spaced prefix / in
compact (whitespace-free) form. -/
def yearAnchor (nameNorm titleNorm : List Nat) (yr : Int) : Bool :=
  match findBdd (intStr yr) nameNorm with
  | none => false
  | some i =>
    let torrentTitle := pyStrip (nameNorm.take i)
    let torrentCompact := removeWs torrentTitle
    let titleCompact := removeWs titleNorm
    (torrentTitle == titleNorm ||
      List.isPrefixOf (titleNorm ++ [32]) torrentTitle) ||
    (torrentCompact == titleCompact ||
      List.isPrefixOf titleCompact torrentCompact)

/-- Python's substring test `pat in s`. -/
def isSubB (pat : List Nat) : List Nat → Bool
  | [] => pat.isEmpty
  | c :: r => List.isPrefixOf pat (c :: r) || isSubB pat r

/-- The dead `year_ok` computation of `title_matches` (line 21–22); it is
assigned in the source but never read, so `title_matches` does not use it. -/
def year_ok (nameNorm : List Nat) (y : Int) (fuzzyYear : Bool) : Bool :=
  (if fuzzyYear then [y - 1, y + 1] else [y]).any
    (fun yr => isSubB (intStr yr) nameNorm)

/-- `title_matches` from `torrent_utils.py` lines 15–37.  The year loop runs
over `[y]` when `fuzzy_year` is false and over `[y, y − 1, y + 1]` when it
is true, returning on the first year whose anchored comparison succeeds. -/
def title_matches (torrentName movieName : List Nat) (y : Int)
    (fuzzyYear : Bool) : Bool :=
  let nameNorm := normalize torrentName
  let titleNorm := joinSp (pySplit (normalize movieName))
  ([y] ++ (if fuzzyYear then [y - 1, y + 1] else [])).any
    (yearAnchor nameNorm titleNorm)

example : title_matches (strL "Movie.Title.2020.1080p.x265-GRP")
    (strL "Movie Title") 2020 false = true := by decide

example : title_matches (strL "Movie Title 2020") (strL "Movie Title") 2020
    true = true := by decide

example : title_matches (strL "Other Film 2020") (strL "Movie Title") 2020
    false = false := by decide

example : title_matches (strL "Movie Title 2019") (strL "Movie Title") 2020
    false = false := by decide

example : title_matches (strL "Movie Title 2019") (strL "Movie Title") 2020
    true = true := by decide

/-- A parsed search result; `rank_results` reads only the `name` and
`size_bytes` fields of the result dict built by `parse_results`. -/
structure Result where
  name : List Nat
  sizeBytes : Nat
  deriving DecidableEq

/-- `MAX_SIZE_BYTES = 4 * 1024**3` (search_iptorrents.py line 130). -/
def maxSizeBytes : Nat := 4 * 1024 ^ 3

/-- Resolution buckets of `rank_results`. -/
inductive Res where
  | r1080
  | r720
  deriving DecidableEq

/-- Codec buckets of `rank_results`. -/
inductive Codec where
  | x265
  | x264
  | other
  deriving DecidableEq

/-- The filter of `rank_results` (lines 140–143): when a movie name is
supplied the title must match (exact-year mode), and the size must not
exceed the 4 GB ceiling. -/
def passesFilter (movieName : List Nat) (y : Int) (r : Result) : Bool :=
  (movieName.isEmpty || title_matches r.name movieName y false) &&
  (r.sizeBytes ≤ maxSizeBytes)

/-- Resolution classification (lines 145–146): the loop tests `"1080p"`
then `"720p"` as substrings of the lowercased name and breaks at the first
hit; a name containing neither is never appended to any bucket. -/
def resClass (r : Result) : Option Res :=
  let lower := r.name.map pyLower
  if isSubB (strL "1080p") lower then some Res.r1080
  else if isSubB (strL "720p") lower then some Res.r720
  else none

/-- Codec classification (lines 147–152): `x265|h.?265|hevc` first, then
`x264|h.?264`, else "other". -/
def codecClass (r : Result) : Codec :=
  let lower := r.name.map pyLower
  if isSubB (strL "x265") lower || isSubB (strL "h265") lower ||
      isSubB (strL "h.265") lower || isSubB (strL "hevc") lower then
    Codec.x265
  else if isSubB (strL "x264") lower || isSubB (strL "h264") lower ||
      isSubB (strL "h.264") lower then
    Codec.x264
  else Codec.other

/-- The bucket for one (resolution, codec) pair, in input order. -/
def bucket (results : List Result) (movieName : List Nat) (y : Int)
    (res : Res) (codec : Codec) : List Result :=
  results.filter
    (fun r => passesFilter movieName y r && resClass r == some res &&
      codecClass r == codec)

/-- Python `min(lst, key=size)`: the first element of minimum size. -/
def minBySize : List Result → Option Result
  | [] => none
  | r :: rest =>
    some (rest.foldl (fun best x =>
      if x.sizeBytes < best.sizeBytes then x else best) r)

/-- Python `max(lst, key=size)`: the first element of maximum size. -/
def maxBySize : List Result → Option Result
  | [] => none
  | r :: rest =>
    some (rest.foldl (fun best x =>
      if x.sizeBytes > best.sizeBytes then x else best) r)

/-- Selection within one resolution (lines 156–166): smallest x265 member,
else smallest x264 member, else largest "other" member. -/
def pickRes (results : List Result) (movieName : List Nat) (y : Int)
    (res : Res) : Option Result :=
  match minBySize (bucket results movieName y res Codec.x265) with
  | some r => some r
  | none =>
    match minBySize (bucket results movieName y res Codec.x264) with
    | some r => some r
    | none => maxBySize (bucket results movieName y res Codec.other)

/-- `rank_results` from `search_iptorrents.py` lines 133–168: filter and
bucket the results, then try 1080p before 720p; `none` when every bucket
is empty. -/
def rank_results (results : List Result) (movieName : List Nat) (y : Int) :
    Option Result :=
  match pickRes results movieName y Res.r1080 with
  | some r => some r
  | none => pickRes results movieName y Res.r720

/-- The three candidates of the spec's ranking scenario. -/
def scenario : List Result :=
  [⟨strL "Movie.Title.2020.1080p.x265-GRP", 1610612736⟩,
   ⟨strL "Movie.Title.2020.1080p.x264-GRP2", 3006477107⟩,
   ⟨strL "Movie.Title.2020.720p.x264-GRP3", 966367641⟩]

example : rank_results scenario (strL "Movie Title") 2020 =
    some ⟨strL "Movie.Title.2020.1080p.x265-GRP", 1610612736⟩ := by decide

example : rank_results [⟨strL "Movie.Title.2020.x264-GRP", 1610612736⟩]
    (strL "Movie Title") 2020 = none := by decide

/-- Digits (with Python's embedded underscores) after the first digit. -/
def intDigitsGo (acc : Nat) : List Nat → Option Nat
  | [] => some acc
  | c :: r =>
    if isDigitB c then intDigitsGo (10 * acc + (c - 48)) r
    else if c = 95 then
      match r with
      | d :: r' =>
        if isDigitB d then intDigitsGo (10 * acc + (d - 48)) r' else none
      | [] => none
    else none

/-- An unsigned decimal literal as accepted by Python `int()`: at least one
digit, single underscores allowed between digits. -/
def intDigits : List Nat → Option Nat
  | [] => none
  | c :: r => if isDigitB c then intDigitsGo (c - 48) r else none

/-- Python `int(bytes)`: strip surrounding whitespace, optional sign, then
an unsigned literal; `None` models the `ValueError` on anything else. -/
def parseIntBytes (l : List Nat) : Option Int :=
  match pyStrip l with
  | [] => none
  | c :: r =>
    if c = 43 then (intDigits r).map (fun n => (n : Int))
    else if c = 45 then (intDigits r).map (fun n => -(n : Int))
    else (intDigits (c :: r)).map (fun n => (n : Int))

/-- UTF-8 continuation byte. -/
def contB (c : Nat) : Bool := 128 ≤ c && c ≤ 191

/-- `bytes.decode('utf-8', errors='replace')`: well-formed sequences decode
to their code point; an invalid or truncated sequence consumes its maximal
valid prefix and yields U+FFFD (65533). -/
def utf8dec : List Nat → List Nat
  | [] => []
  | b :: r =>
    if b < 128 then b :: utf8dec r
    else if 194 ≤ b && b ≤ 223 then
      match r with
      | b2 :: r2 =>
        if contB b2 then ((b - 192) * 64 + (b2 - 128)) :: utf8dec r2
        else 65533 :: utf8dec (b2 :: r2)
      | [] => [65533]
    else if 224 ≤ b && b ≤ 239 then
      match r with
      | b2 :: r2 =>
        if (if b == 224 then 160 ≤ b2 && b2 ≤ 191
            else if b == 237 then 128 ≤ b2 && b2 ≤ 159
            else contB b2) then
          match r2 with
          | b3 :: r3 =>
            if contB b3 then
              ((b - 224) * 4096 + (b2 - 128) * 64 + (b3 - 128)) :: utf8dec r3
            else 65533 :: utf8dec (b3 :: r3)
          | [] => [65533]
        else 65533 :: utf8dec (b2 :: r2)
      | [] => [65533]
    else if 240 ≤ b && b ≤ 244 then
      match r with
      | b2 :: r2 =>
        if (if b == 240 then 144 ≤ b2 && b2 ≤ 191
            else if b == 244 then 128 ≤ b2 && b2 ≤ 143
            else contB b2) then
          match r2 with
          | b3 :: r3 =>
            if contB b3 then
              match r3 with
              | b4 :: r4 =>
                if contB b4 then
                  ((b - 240) * 262144 + (b2 - 128) * 4096 +
                    (b3 - 128) * 64 + (b4 - 128)) :: utf8dec r4
                else 65533 :: utf8dec (b4 :: r4)
              | [] => [65533]
            else 65533 :: utf8dec (b3 :: r3)
          | [] => [65533]
        else 65533 :: utf8dec (b2 :: r2)
      | [] => [65533]
    else 65533 :: utf8dec r

/-- Decoded bencode values.  `bstr` is a raw byte string as decoded; `str`
is Python text, which appears when a dict key is converted by
`key.decode('utf-8', errors='replace')`. -/
inductive BVal where
  | int (i : Int)
  | bstr (s : List Nat)
  | str (s : List Nat)
  | list (l : List BVal)
  | dict (d : List (BVal × BVal))

mutual

/-- Decidable equality on `BVal` (the derive handler does not support this
nested inductive). -/
def BVal.decEq : (a b : BVal) → Decidable (a = b)
  | .int a, .int b =>
    if h : a = b then isTrue (by rw [h]) else isFalse (by simp [h])
  | .bstr a, .bstr b =>
    if h : a = b then isTrue (by rw [h]) else isFalse (by simp [h])
  | .str a, .str b =>
    if h : a = b then isTrue (by rw [h]) else isFalse (by simp [h])
  | .list a, .list b =>
    match BVal.decEqList a b with
    | isTrue h => isTrue (by rw [h])
    | isFalse h => isFalse (by simp [h])
  | .dict a, .dict b =>
    match BVal.decEqPairs a b with
    | isTrue h => isTrue (by rw [h])
    | isFalse h => isFalse (by simp [h])
  | .int _, .bstr _ => isFalse nofun
  | .int _, .str _ => isFalse nofun
  | .int _, .list _ => isFalse nofun
  | .int _, .dict _ => isFalse nofun
  | .bstr _, .int _ => isFalse nofun
  | .bstr _, .str _ => isFalse nofun
  | .bstr _, .list _ => isFalse nofun
  | .bstr _, .dict _ => isFalse nofun
  | .str _, .int _ => isFalse nofun
  | .str _, .bstr _ => isFalse nofun
  | .str _, .list _ => isFalse nofun
  | .str _, .dict _ => isFalse nofun
  | .list _, .int _ => isFalse nofun
  | .list _, .bstr _ => isFalse nofun
  | .list _, .str _ => isFalse nofun
  | .list _, .dict _ => isFalse nofun
  | .dict _, .int _ => isFalse nofun
  | .dict _, .bstr _ => isFalse nofun
  | .dict _, .str _ => isFalse nofun
  | .dict _, .list _ => isFalse nofun

/-- Decidable equality on lists of `BVal`. -/
def BVal.decEqList : (a b : List BVal) → Decidable (a = b)
  | [], [] => isTrue rfl
  | [], _ :: _ => isFalse nofun
  | _ :: _, [] => isFalse nofun
  | x :: xs, y :: ys =>
    match BVal.decEq x y, BVal.decEqList xs ys with
    | isTrue h1, isTrue h2 => isTrue (by rw [h1, h2])
    | isFalse h1, _ => isFalse (by simp [h1])
    | _, isFalse h2 => isFalse (by simp [h2])

/-- Decidable equality on lists of `BVal` pairs. -/
def BVal.decEqPairs : (a b : List (BVal × BVal)) → Decidable (a = b)
  | [], [] => isTrue rfl
  | [], _ :: _ => isFalse nofun
  | _ :: _, [] => isFalse nofun
  | (k1, v1) :: xs, (k2, v2) :: ys =>
    match BVal.decEq k1 k2, BVal.decEq v1 v2, BVal.decEqPairs xs ys with
    | isTrue h1, isTrue h2, isTrue h3 => isTrue (by rw [h1, h2, h3])
    | isFalse h1, _, _ => isFalse (by simp [h1])
    | _, isFalse h2, _ => isFalse (by simp [h2])
    | _, _, isFalse h3 => isFalse (by simp [h3])

end

instance : DecidableEq BVal := BVal.decEq

instance {e a : Type} [DecidableEq e] [DecidableEq a] :
    DecidableEq (Except e a) := fun x y =>
  match x, y with
  | .ok u, .ok v =>
    if h : u = v then isTrue (by rw [h]) else isFalse (by simp [h])
  | .error u, .error v =>
    if h : u = v then isTrue (by rw [h]) else isFalse (by simp [h])
  | .ok _, .error _ => isFalse nofun
  | .error _, .ok _ => isFalse nofun

/-- Index of the first occurrence of `t`. -/
def findIdxFrom (t : Nat) : List Nat → Option Nat
  | [] => none
  | c :: r => if c = t then some 0 else (findIdxFrom t r).map (· + 1)

/-- Python `bytes.index(target, start)` (`none` models the `ValueError`). -/
def indexFrom (t : Nat) (l : List Nat) (start : Nat) : Option Nat :=
  (findIdxFrom t (l.drop start)).map (· + start)

/-- Python slice `l[a:b]` (clamped at the ends, empty when `b ≤ a`). -/
def sliceL (l : List Nat) (a b : Nat) : List Nat := (l.drop a).take (b - a)

/-- Python dict assignment `d[k] = v`: update in place when the key exists,
else append; insertion order is preserved. -/
def dictInsert (d : List (BVal × BVal)) (k v : BVal) : List (BVal × BVal) :=
  if d.any (fun p => p.1 == k) then
    d.map (fun p => if p.1 == k then (k, v) else p)
  else d ++ [(k, v)]

/-- Lines 27–29 of `torrent_sizes.py` plus Python hashability: a bytes key
is converted to text; an int key is used unchanged; list/dict keys raise
`TypeError` (unhashable) at `result[key] = val`. -/
def toKey : BVal → Except Unit BVal
  | .bstr s => .ok (.str (utf8dec s))
  | .int i => .ok (.int i)
  | .str s => .ok (.str s)
  | .list _ => .error ()
  | .dict _ => .error ()

mutual

/-- `bdecode` from `torrent_sizes.py` lines 8–37, cursor-based; `fuel`
bounds the call-tree depth (each call and loop step consumes at least one
byte, so `2 * length + 2` always suffices, see `bdecodeTop`).  `.error ()`
models the exceptions (`ValueError` from the explicit raise, `bytes.index`
and `int()`, `TypeError` from unhashable dict keys). -/
def bdecode (fuel : Nat) (data : List Nat) (idx : Nat) :
    Except Unit (BVal × Nat) :=
  match fuel with
  | 0 => .error ()
  | fuel + 1 =>
    match data.get? idx with
    | none => .error ()
    | some ch =>
      if ch = 105 then
        match indexFrom 101 data (idx + 1) with
        | none => .error ()
        | some e =>
          match parseIntBytes (sliceL data (idx + 1) e) with
          | none => .error ()
          | some v => .ok (.int v, e + 1)
      else if ch = 108 then bdecodeList fuel data (idx + 1) []
      else if ch = 100 then bdecodeDict fuel data (idx + 1) []
      else if isDigitB ch then
        match indexFrom 58 data idx with
        | none => .error ()
        | some colon =>
          match parseIntBytes (sliceL data idx colon) with
          | none => .error ()
          | some len =>
            .ok (.bstr (sliceL data (colon + 1) (colon + 1 + len.toNat)),
              colon + 1 + len.toNat)
      else .error ()

/-- The `while` loop of the list case (lines 15–20). -/
def bdecodeList (fuel : Nat) (data : List Nat) (idx : Nat)
    (acc : List BVal) : Except Unit (BVal × Nat) :=
  match fuel with
  | 0 => .error ()
  | fuel + 1 =>
    if data.get? idx = some 101 then .ok (.list acc.reverse, idx + 1)
    else
      match bdecode fuel data idx with
      | .error () => .error ()
      | .ok (v, idx') => bdecodeList fuel data idx' (v :: acc)

/-- The `while` loop of the dict case (lines 22–30). -/
def bdecodeDict (fuel : Nat) (data : List Nat) (idx : Nat)
    (acc : List (BVal × BVal)) : Except Unit (BVal × Nat) :=
  match fuel with
  | 0 => .error ()
  | fuel + 1 =>
    if data.get? idx = some 101 then .ok (.dict acc, idx + 1)
    else
      match bdecode fuel data idx with
      | .error () => .error ()
      | .ok (k, i1) =>
        match bdecode fuel data i1 with
        | .error () => .error ()
        | .ok (v, i2) =>
          match toKey k with
          | .error () => .error ()
          | .ok k' => bdecodeDict fuel data i2 (dictInsert acc k' v)

end

/-- Top-level decode of a whole buffer.  Each recursive call and each loop
iteration starts at a strictly larger cursor than its parent, so the call
tree is at most `2 * data.length + 2` deep and this fuel never runs out. -/
def bdecodeTop (data : List Nat) : Except Unit (BVal × Nat) :=
  bdecode (2 * data.length + 2) data 0

example : bdecodeTop (strL "i42e") = .ok (.int 42, 4) := by decide
example : bdecodeTop (strL "4:spam") = .ok (.bstr (strL "spam"), 6) := by
  decide
example : bdecodeTop (strL "l4:spami42ee") =
    .ok (.list [.bstr (strL "spam"), .int 42], 12) := by decide
example : bdecodeTop (strL "d3:bar4:spam3:fooi42ee") =
    .ok (.dict [(.str (strL "bar"), .bstr (strL "spam")),
      (.str (strL "foo"), .int 42)], 22) := by decide
example : bdecodeTop (strL "i-0e") = .ok (.int 0, 4) := by decide
example : bdecodeTop (strL "i007e") = .ok (.int 7, 5) := by decide
example : bdecodeTop (strL "di1ei2ee") =
    .ok (.dict [(.int 1, .int 2)], 8) := by decide
example : bdecodeTop (strL "d3:foo") = .error () := by decide

/-- Python dict lookup by key. -/
def dictGet (d : List (BVal × BVal)) (k : BVal) : Option BVal :=
  (d.find? (fun p => p.1 == k)).map (fun p => p.2)

/-- Python `s in v` for a text needle `s` (`'length' in info`): key test on
a dict, element test on a list, substring test on text, `TypeError` on
bytes or int. -/
def strInB (v : BVal) (s : List Nat) : Except Unit Bool :=
  match v with
  | .dict d => .ok (d.any (fun p => p.1 == BVal.str s))
  | .list l => .ok (l.any (fun x => x == BVal.str s))
  | .str t => .ok (isSubB s t)
  | .bstr _ => .error ()
  | .int _ => .error ()

/-- Python `v['s']`: dict lookup (`KeyError` when absent), `TypeError` on
every other value. -/
def getItem (v : BVal) (s : List Nat) : Except Unit BVal :=
  match v with
  | .dict d =>
    match dictGet d (BVal.str s) with
    | some x => .ok x
    | none => .error ()
  | _ => .error ()

/-- `sum(f['length'] for f in files)` over a decoded `files` list: each
entry must be a dict carrying an integer `length`. -/
def sumFiles (fs : List BVal) (acc : Int) : Except Unit Int :=
  match fs with
  | [] => .ok acc
  | f :: rest =>
    match getItem f (strL "length") with
    | .error () => .error ()
    | .ok (.int i) => sumFiles rest (acc + i)
    | .ok _ => .error ()

/-- Lines 48–52 of `torrent_sizes.py` applied to `files` of every shape
Python iterates: a list sums entries; empty dict / bytes / text sum to `0`
(iteration yields nothing); anything non-empty of those shapes, and an
int, raises `TypeError`. -/
def filesSum : BVal → Except Unit Int
  | .list fs => sumFiles fs 0
  | .dict d => if d.isEmpty then .ok 0 else .error ()
  | .bstr s => if s.isEmpty then .ok 0 else .error ()
  | .str s => if s.isEmpty then .ok 0 else .error ()
  | .int _ => .error ()

/-- The body of the `try` block of `torrent_size` after decoding (lines
48–52): `info = meta.get('info', {})`, then the `length` value, else the
summed `files` lengths, else no size (`.ok none` is the fall-through to
`return None`). -/
def sizeFromMeta (meta : BVal) : Except Unit (Option BVal) :=
  match meta with
  | .dict d =>
    let info := (dictGet d (BVal.str (strL "info"))).getD (BVal.dict [])
    match strInB info (strL "length") with
    | .error () => .error ()
    | .ok true =>
      match getItem info (strL "length") with
      | .error () => .error ()
      | .ok v => .ok (some v)
    | .ok false =>
      match strInB info (strL "files") with
      | .error () => .error ()
      | .ok true =>
        match getItem info (strL "files") with
        | .error () => .error ()
        | .ok files =>
          match filesSum files with
          | .error () => .error ()
          | .ok n => .ok (some (.int n))
      | .ok false => .ok none
  | _ => .error ()

/-- `torrent_size` from `torrent_sizes.py` lines 40–55 on the file's byte
content: `None` unless the data starts with `d`, decodes, and yields a
size; the `except Exception` turns every decode or extraction failure
into `None` as well. -/
def torrentSize (data : List Nat) : Option BVal :=
  if data.head? ≠ some 100 then none
  else
    match bdecodeTop data with
    | .error () => none
    | .ok (meta, _) =>
      match sizeFromMeta meta with
      | .error () => none
      | .ok none => none
      | .ok (some v) => some v

/-- `n` nested list opens around `i0e`: the bencoding of a depth-`n`
nesting of singleton lists. -/
def nestData (n : Nat) : List Nat :=
  List.replicate n 108 ++ [105, 48, 101] ++ List.replicate n 101

/-- The value `nestData n` decodes to. -/
def nestVal : Nat → BVal
  | 0 => .int 0
  | n + 1 => .list [nestVal n]

example : torrentSize (strL "d4:infod6:lengthi1000eee") =
    some (.int 1000) := by decide
example : torrentSize
    (strL "d4:infod5:filesld6:lengthi300eed6:lengthi700eeeee") =
    some (.int 1000) := by decide
example : torrentSize (strL "de") = none := by decide
example : torrentSize (strL "d") = none := by decide
example : torrentSize (strL "i5e") = none := by decide
example : bdecodeTop (nestData 3) =
    .ok (.list [.list [.list [.int 0]]], 9) := by decide

/-- The value of a digit string (used for the leading-zero property). -/
def digitsVal (ds : List Nat) : Nat :=
  ds.foldl (fun a c => 10 * a + (c - 48)) 0

/-- Single-character step of the spec's normalization pipeline as the claim
states it: lowercase, `&`/`+` → "and", apostrophes removed, and every
remaining character that is neither ALPHANUMERIC nor a space replaced by a
space — so the underscore becomes a space. -/
def specCharOrig (c : Nat) : List Nat :=
  let c0 := pyLower c
  if c0 = 38 || c0 = 43 then andW
  else if c0 = 39 || c0 = 8217 then []
  else if (isDigitB c0 || (97 ≤ c0 && c0 ≤ 122) || (65 ≤ c0 && c0 ≤ 90)) ||
      isSpaceB c0 then [c0]
  else [32]

/-- `normalize` as the claim describes it (underscore treated as
punctuation), followed by whitespace collapse and trim. -/
def specNormalizeOrig (s : List Nat) : List Nat :=
  pyStrip (collapseWs (s.flatMap specCharOrig))

/-- Single-character step of the amended pipeline: as `specCharOrig`, but
the kept class is the word class (alphanumerics AND the underscore), which
is what `re.sub(r'[^\w\s]', ' ', s)` keeps. -/
def specCharAmended (c : Nat) : List Nat :=
  let c0 := pyLower c
  if c0 = 38 || c0 = 43 then andW
  else if c0 = 39 || c0 = 8217 then []
  else if isWordB c0 || isSpaceB c0 then [c0]
  else [32]

/-- The amended spec pipeline: one pass over the characters, then collapse
whitespace runs and trim. -/
def specNormalizeAmended (s : List Nat) : List Nat :=
  pyStrip (collapseWs (s.flatMap specCharAmended))

/-- No two adjacent whitespace characters. -/
def okRun : List Nat → Bool
  | [] => true
  | [_] => true
  | a :: b :: r => (!(isSpaceB a && isSpaceB b)) && okRun (b :: r)

/-- A character that can appear in `_normalize` output: a word character
that is not an uppercase letter, or the plain space. -/
def goodChar (c : Nat) : Bool :=
  (isWordB c && !(65 ≤ c && c ≤ 90)) || c == 32

/-! ## Theorems -/

theorem minBySize_eq_none {l : List Result} : minBySize l = none ↔ l = [] := by
  cases l <;> simp [minBySize]

/-- C1 (counterexample): an entry that passes the title filter and the size
ceiling but whose name contains neither "1080p" nor "720p" is not retained:
`rank_results` returns no result even though a survivor exists, so there is
no "none" bucket and no globally-largest fallback. -/
theorem rank_results_none_bucket_cex :
    passesFilter (strL "Movie Title") 2020
      ⟨strL "Movie.Title.2020.x264-GRP", 1610612736⟩ = true ∧
    resClass ⟨strL "Movie.Title.2020.x264-GRP", 1610612736⟩ = none ∧
    rank_results [⟨strL "Movie.Title.2020.x264-GRP", 1610612736⟩]
      (strL "Movie Title") 2020 = none := by decide

/-- C1 (amended): entries whose lowercased name contains neither "1080p"
nor "720p" are dropped during bucketing; when no result classifies into a
1080p/720p bucket, `rank_results` returns no result even if survivors
exist. -/
theorem rank_results_drops_unclassified (results : List Result)
    (m : List Nat) (y : Int) (h : ∀ r ∈ results, resClass r = none) :
    rank_results results m y = none := by
  have hb : ∀ res codec, bucket results m y res codec = [] := by
    intro res codec
    apply List.filter_eq_nil_iff.mpr
    intro r hr
    simp [h r hr]
  simp [rank_results, pickRes, hb, minBySize, maxBySize]

/-- C1 witness for the amended theorem. -/
theorem rank_results_drops_unclassified_witness :
    rank_results [⟨strL "Movie.Title.2020.x264-GRP", 1610612736⟩]
      (strL "Movie Title") 2020 = none :=
  rank_results_drops_unclassified _ _ _ (by decide)

/-- C2 (counterexample): under `fuzzy_year = true` a candidate whose only
embedded year token is the exact year still matches, contradicting the
claim that only `year − 1` and `year + 1` are tested. -/
theorem fuzzy_year_exact_cex :
    title_matches (strL "Movie Title 2020") (strL "Movie Title") 2020 true
      = true := by decide

/-- C2 (amended): with `fuzzy_year = true` the year-anchoring loop tests
`y`, `y − 1` and `y + 1` — the exact set unioned with the tolerant one —
so the tolerant mode extends rather than replaces the exact mode. -/
theorem fuzzy_year_tests_three_years (n t : List Nat) (y : Int) :
    title_matches n t y true =
      (title_matches n t y false ||
       yearAnchor (normalize n) (joinSp (pySplit (normalize t))) (y - 1) ||
       yearAnchor (normalize n) (joinSp (pySplit (normalize t))) (y + 1)) := by
  simp [title_matches, Bool.or_assoc]

theorem maxBySize_eq_none {l : List Result} : maxBySize l = none ↔ l = [] := by
  cases l <;> simp [maxBySize]

/-- C3: the full selection order of `rank_results`: 1080p is tried before
720p; within a resolution the minimum-size x265 member wins, else the
minimum-size x264 member, else the maximum-size member of the "other"
bucket; the first non-empty bucket in this order wins, and with all six
buckets empty the result is `none`.  On the spec's three-candidate
scenario with a 4 GB ceiling this selects the 1.5 GB 1080p x265 entry. -/
theorem rank_results_selection_order :
    (∀ (results : List Result) (m : List Nat) (y : Int),
      (bucket results m y Res.r1080 Codec.x265 ≠ [] →
        rank_results results m y =
          minBySize (bucket results m y Res.r1080 Codec.x265)) ∧
      (bucket results m y Res.r1080 Codec.x265 = [] →
        bucket results m y Res.r1080 Codec.x264 ≠ [] →
        rank_results results m y =
          minBySize (bucket results m y Res.r1080 Codec.x264)) ∧
      (bucket results m y Res.r1080 Codec.x265 = [] →
        bucket results m y Res.r1080 Codec.x264 = [] →
        bucket results m y Res.r1080 Codec.other ≠ [] →
        rank_results results m y =
          maxBySize (bucket results m y Res.r1080 Codec.other)) ∧
      ((∀ c, bucket results m y Res.r1080 c = []) →
        bucket results m y Res.r720 Codec.x265 ≠ [] →
        rank_results results m y =
          minBySize (bucket results m y Res.r720 Codec.x265)) ∧
      ((∀ c, bucket results m y Res.r1080 c = []) →
        bucket results m y Res.r720 Codec.x265 = [] →
        bucket results m y Res.r720 Codec.x264 ≠ [] →
        rank_results results m y =
          minBySize (bucket results m y Res.r720 Codec.x264)) ∧
      ((∀ c, bucket results m y Res.r1080 c = []) →
        bucket results m y Res.r720 Codec.x265 = [] →
        bucket results m y Res.r720 Codec.x264 = [] →
        bucket results m y Res.r720 Codec.other ≠ [] →
        rank_results results m y =
          maxBySize (bucket results m y Res.r720 Codec.other)) ∧
      ((∀ res c, bucket results m y res c = []) →
        rank_results results m y = none)) ∧
    rank_results scenario (strL "Movie Title") 2020 =
      some ⟨strL "Movie.Title.2020.1080p.x265-GRP", 1610612736⟩ := by
  constructor
  · intro results m y
    refine ⟨?_, ?_, ?_, ?_, ?_, ?_, ?_⟩
    · intro h1
      unfold rank_results pickRes
      cases h : minBySize (bucket results m y Res.r1080 Codec.x265) with
      | none => exact absurd (minBySize_eq_none.1 h) h1
      | some r => simp [h]
    · intro h1 h2
      have e1 : minBySize (bucket results m y Res.r1080 Codec.x265) = none :=
        minBySize_eq_none.2 h1
      unfold rank_results pickRes
      cases h : minBySize (bucket results m y Res.r1080 Codec.x264) with
      | none => exact absurd (minBySize_eq_none.1 h) h2
      | some r => simp [e1, h]
    · intro h1 h2 h3
      have e1 : minBySize (bucket results m y Res.r1080 Codec.x265) = none :=
        minBySize_eq_none.2 h1
      have e2 : minBySize (bucket results m y Res.r1080 Codec.x264) = none :=
        minBySize_eq_none.2 h2
      unfold rank_results pickRes
      cases h : maxBySize (bucket results m y Res.r1080 Codec.other) with
      | none => exact absurd (maxBySize_eq_none.1 h) h3
      | some r => simp [e1, e2, h]
    · intro hall h2
      have e1 : minBySize (bucket results m y Res.r1080 Codec.x265) = none :=
        minBySize_eq_none.2 (hall Codec.x265)
      have e2 : minBySize (bucket results m y Res.r1080 Codec.x264) = none :=
        minBySize_eq_none.2 (hall Codec.x264)
      have e3 : maxBySize (bucket results m y Res.r1080 Codec.other) = none :=
        maxBySize_eq_none.2 (hall Codec.other)
      unfold rank_results pickRes
      cases h : minBySize (bucket results m y Res.r720 Codec.x265) with
      | none => exact absurd (minBySize_eq_none.1 h) h2
      | some r => simp [e1, e2, e3, h]
    · intro hall h1 h2
      have e1 : minBySize (bucket results m y Res.r1080 Codec.x265) = none :=
        minBySize_eq_none.2 (hall Codec.x265)
      have e2 : minBySize (bucket results m y Res.r1080 Codec.x264) = none :=
        minBySize_eq_none.2 (hall Codec.x264)
      have e3 : maxBySize (bucket results m y Res.r1080 Codec.other) = none :=
        maxBySize_eq_none.2 (hall Codec.other)
      have e4 : minBySize (bucket results m y Res.r720 Codec.x265) = none :=
        minBySize_eq_none.2 h1
      unfold rank_results pickRes
      cases h : minBySize (bucket results m y Res.r720 Codec.x264) with
      | none => exact absurd (minBySize_eq_none.1 h) h2
      | some r => simp [e1, e2, e3, e4, h]
    · intro hall h1 h2 h3
      have e1 : minBySize (bucket results m y Res.r1080 Codec.x265) = none :=
        minBySize_eq_none.2 (hall Codec.x265)
      have e2 : minBySize (bucket results m y Res.r1080 Codec.x264) = none :=
        minBySize_eq_none.2 (hall Codec.x264)
      have e3 : maxBySize (bucket results m y Res.r1080 Codec.other) = none :=
        maxBySize_eq_none.2 (hall Codec.other)
      have e4 : minBySize (bucket results m y Res.r720 Codec.x265) = none :=
        minBySize_eq_none.2 h1
      have e5 : minBySize (bucket results m y Res.r720 Codec.x264) = none :=
        minBySize_eq_none.2 h2
      unfold rank_results pickRes
      cases h : maxBySize (bucket results m y Res.r720 Codec.other) with
      | none => exact absurd (maxBySize_eq_none.1 h) h3
      | some r => simp [e1, e2, e3, e4, e5, h]
    · intro hall
      have e1 : minBySize (bucket results m y Res.r1080 Codec.x265) = none :=
        minBySize_eq_none.2 (hall Res.r1080 Codec.x265)
      have e2 : minBySize (bucket results m y Res.r1080 Codec.x264) = none :=
        minBySize_eq_none.2 (hall Res.r1080 Codec.x264)
      have e3 : maxBySize (bucket results m y Res.r1080 Codec.other) = none :=
        maxBySize_eq_none.2 (hall Res.r1080 Codec.other)
      have e4 : minBySize (bucket results m y Res.r720 Codec.x265) = none :=
        minBySize_eq_none.2 (hall Res.r720 Codec.x265)
      have e5 : minBySize (bucket results m y Res.r720 Codec.x264) = none :=
        minBySize_eq_none.2 (hall Res.r720 Codec.x264)
      have e6 : maxBySize (bucket results m y Res.r720 Codec.other) = none :=
        maxBySize_eq_none.2 (hall Res.r720 Codec.other)
      unfold rank_results pickRes
      simp [e1, e2, e3, e4, e5, e6]
  · decide

/-- C3 witness: the branch conjuncts applied at concrete inputs — the
scenario (1080p x265 min), an x264-only list, a 720p "other"-only list,
and the empty list. -/
theorem rank_results_selection_order_witness :
    rank_results scenario (strL "Movie Title") 2020 =
      minBySize (bucket scenario (strL "Movie Title") 2020
        Res.r1080 Codec.x265) ∧
    rank_results [⟨strL "Movie.Title.2020.1080p.x264-GRP2", 3006477107⟩]
        (strL "Movie Title") 2020 =
      minBySize (bucket
        [⟨strL "Movie.Title.2020.1080p.x264-GRP2", 3006477107⟩]
        (strL "Movie Title") 2020 Res.r1080 Codec.x264) ∧
    rank_results [⟨strL "Movie.Title.2020.720p-GRP", 966367641⟩]
        (strL "Movie Title") 2020 =
      maxBySize (bucket [⟨strL "Movie.Title.2020.720p-GRP", 966367641⟩]
        (strL "Movie Title") 2020 Res.r720 Codec.other) ∧
    rank_results [] (strL "Movie Title") 2020 = none :=
  ⟨(rank_results_selection_order.1 scenario (strL "Movie Title") 2020).1
      (by decide),
   (rank_results_selection_order.1
      [⟨strL "Movie.Title.2020.1080p.x264-GRP2", 3006477107⟩]
      (strL "Movie Title") 2020).2.1 (by decide) (by decide),
   (rank_results_selection_order.1
      [⟨strL "Movie.Title.2020.720p-GRP", 966367641⟩]
      (strL "Movie Title") 2020).2.2.2.2.2.1
      (by intro c; cases c <;> decide) (by decide) (by decide) (by decide),
   (rank_results_selection_order.1 [] (strL "Movie Title") 2020).2.2.2.2.2.2
      (by intro res c; cases res <;> cases c <;> decide)⟩

/-- C10: when the movie title normalizes to nothing, `title_matches` in
exact mode accepts every candidate whose normalized name carries the year
as a standalone token, because the empty compact title is a prefix of
every compact prefix. -/
theorem empty_title_matches_any (name t : List Nat) (y : Int)
    (ht : normalize t = [])
    (hy : (findBdd (intStr y) (normalize name)).isSome = true) :
    title_matches name t y false = true := by
  unfold title_matches
  rw [ht]
  cases hf : findBdd (intStr y) (normalize name) with
  | none => rw [hf] at hy; simp at hy
  | some i =>
    simp [yearAnchor, hf, removeWs, pySplit, splitGo, joinSp,
      List.intercalate, List.nil_prefix]

/-- C10 witness: a punctuation-only title and a year-bearing candidate. -/
theorem empty_title_matches_any_witness :
    normalize (strL "!!!") = [] ∧
    (findBdd (intStr 1999) (normalize (strL "Whatever 1999"))).isSome
      = true ∧
    title_matches (strL "Whatever 1999") (strL "!!!") 1999 false = true :=
  ⟨by decide, by decide,
    empty_title_matches_any _ _ _ (by decide) (by decide)⟩

/-- C8 (counterexample): an unparseable buffer (`d`, unterminated) and a
structurally valid dict lacking both `length` and `files` (`de`) produce
the identical result `none`, so the caller cannot tell the two conditions
apart from the returned result. -/
theorem torrent_size_indistinct_cex :
    torrentSize (strL "d") = none ∧ torrentSize (strL "de") = none ∧
    bdecodeTop (strL "d") = .error () ∧
    bdecodeTop (strL "de") = .ok (.dict [], 2) := by decide

/-- C8 (amended): `torrent_size` collapses both failure conditions into the
single outcome `None`: a decode failure and a successfully decoded dict
whose `info` yields no size both map to `none`, so no distinction is
offered at the interface. -/
theorem torrent_size_collapses_failures :
    (∀ data, bdecodeTop data = .error () → torrentSize data = none) ∧
    (∀ data meta k, bdecodeTop data = .ok (meta, k) →
      sizeFromMeta meta = .ok none → torrentSize data = none) := by
  constructor
  · intro data h
    unfold torrentSize
    split
    · rfl
    · rw [h]
  · intro data meta k h1 h2
    unfold torrentSize
    split
    · rfl
    · rw [h1]
      simp [h2]

/-- C8 witness: the amended theorem applied to the two concrete buffers. -/
theorem torrent_size_collapses_failures_witness :
    torrentSize (strL "d") = none ∧ torrentSize (strL "de") = none :=
  ⟨torrent_size_collapses_failures.1 (strL "d") (by decide),
   torrent_size_collapses_failures.2 (strL "de") (.dict []) 2 (by decide)
     (by decide)⟩

/-- C6 (counterexample): a dict whose key decodes as an integer does not
fail; `bdecode` constructs the entry with the integer key unchanged. -/
theorem bdecode_int_key_cex :
    bdecodeTop (strL "di1ei2ee") = .ok (.dict [(.int 1, .int 2)], 8) := by
  decide

/-- C6 (amended): a dict key that decodes as a non-byte-string but hashable
value — an integer — raises no error: for every pair of single-digit
integer encodings the dict entry is built from the integer key as is.
(Only byte-string keys are converted to text; unhashable list/dict keys do
fail, via `TypeError` at the assignment.) -/
theorem bdecode_int_key_entry :
    ∀ a < 10, ∀ b < 10,
      bdecodeTop [100, 105, 48 + a, 101, 105, 48 + b, 101, 101] =
        .ok (.dict [(.int (a : Int), .int (b : Int))], 8) := by decide

/-- C6 witness: the amended family at the digits 1 and 2. -/
theorem bdecode_int_key_entry_witness :
    bdecodeTop [100, 105, 48 + 1, 101, 105, 48 + 2, 101, 101] =
      .ok (.dict [(.int ((1 : Nat) : Int), .int ((2 : Nat) : Int))], 8) :=
  bdecode_int_key_entry 1 (by decide) 2 (by decide)

theorem findIdxFrom_sentinel (t : Nat) (l rest : List Nat)
    (h : ∀ c ∈ l, c ≠ t) : findIdxFrom t (l ++ t :: rest) = some l.length := by
  induction l with
  | nil => simp [findIdxFrom]
  | cons c r ih =>
    have hc : c ≠ t := h c (by simp)
    simp [findIdxFrom, hc, ih (fun x hx => h x (by simp [hx]))]

theorem dropTrail_eq_self {l : List Nat} (h : ∀ c ∈ l, isSpaceB c = false) :
    dropTrail l = l := by
  induction l with
  | nil => rfl
  | cons c r ih =>
    have hr := ih (fun x hx => h x (List.mem_cons_of_mem _ hx))
    unfold dropTrail
    rw [hr]
    cases r with
    | nil => simp [h c (by simp)]
    | cons d r' => rfl

theorem pyStrip_eq_self {l : List Nat} (h : ∀ c ∈ l, isSpaceB c = false) :
    pyStrip l = l := by
  have hd : l.dropWhile isSpaceB = l := by
    cases l with
    | nil => rfl
    | cons c r => rw [List.dropWhile_cons, h c (by simp)]; simp
  unfold pyStrip
  rw [hd]
  exact dropTrail_eq_self h

theorem intDigitsGo_all_digits {ds : List Nat}
    (h : ∀ d ∈ ds, isDigitB d = true) (acc : Nat) :
    intDigitsGo acc ds =
      some (ds.foldl (fun a c => 10 * a + (c - 48)) acc) := by
  induction ds generalizing acc with
  | nil => rfl
  | cons c r ih =>
    have hc := h c (by simp)
    unfold intDigitsGo
    rw [if_pos hc, List.foldl_cons]
    exact ih (fun x hx => h x (List.mem_cons_of_mem _ hx)) _

/-- C5 (counterexample): the integer encodings `i007e` and `i-0e` decode
to 7 and 0 instead of failing. -/
theorem bdecode_leading_zero_cex :
    bdecodeTop (strL "i007e") = .ok (.int 7, 5) ∧
    bdecodeTop (strL "i-0e") = .ok (.int 0, 4) := by decide

/-- C5 (amended): `bdecode` imposes no leading-zero restriction: an
integer body `0<ds>` for any non-empty digit string `ds` (and likewise
`-0`, see the counterexample) is accepted and parsed with Python's
ordinary `int` conversion instead of raising an error. -/
theorem bdecode_accepts_leading_zero (ds : List Nat) (h1 : ds ≠ [])
    (h2 : ∀ d ∈ ds, isDigitB d = true) :
    bdecodeTop (105 :: 48 :: ds ++ [101]) =
      .ok (.int (digitsVal ds), ds.length + 3) := by
  have hnotE : ∀ c ∈ 48 :: ds, c ≠ 101 := by
    intro c hc
    rcases List.mem_cons.1 hc with h | h
    · omega
    · have := h2 c h
      simp [isDigitB] at this
      omega
  have he : indexFrom 101 (105 :: 48 :: ds ++ [101]) (0 + 1) =
      some (ds.length + 2) := by
    have hfi : findIdxFrom 101 ((48 :: ds) ++ 101 :: []) =
        some (48 :: ds).length := findIdxFrom_sentinel _ _ _ hnotE
    rw [List.cons_append] at hfi
    unfold indexFrom
    show (findIdxFrom 101 (48 :: (ds ++ [101]))).map (fun x => x + (0 + 1))
      = _
    rw [hfi]
    simp
  have hsl : sliceL (105 :: 48 :: ds ++ [101]) (0 + 1) (ds.length + 2) =
      48 :: ds := by
    unfold sliceL
    have hn : ds.length + 2 - (0 + 1) = ds.length + 1 := by omega
    rw [hn]
    show List.take (ds.length + 1) (48 :: (ds ++ [101])) = 48 :: ds
    rw [List.take_succ_cons]
    rw [List.take_left]
  have hnospace : ∀ c ∈ 48 :: ds, isSpaceB c = false := by
    intro c hc
    have hr : 48 ≤ c ∧ c ≤ 57 := by
      rcases List.mem_cons.1 hc with h | h
      · omega
      · have := h2 c h
        simp [isDigitB] at this
        omega
    simp [isSpaceB]
    omega
  have hparse : parseIntBytes (48 :: ds) =
      some ((digitsVal ds : Nat) : Int) := by
    simp only [parseIntBytes, pyStrip_eq_self hnospace]
    rw [if_neg (by decide), if_neg (by decide)]
    simp only [intDigits]
    rw [if_pos (by decide : isDigitB 48 = true)]
    rw [intDigitsGo_all_digits h2]
    simp [digitsVal]
  have hlen : (105 :: 48 :: ds ++ [101]).length = ds.length + 3 := by simp
  unfold bdecodeTop
  rw [hlen]
  rw [show 2 * (ds.length + 3) + 2 = (2 * ds.length + 7) + 1 from by ring]
  rw [bdecode]
  simp only [show (105 :: 48 :: ds ++ [101]).get? 0 = some 105 from rfl]
  rw [if_pos trivial]
  simp only [he, hsl, hparse]

/-- C5 witness: the amended theorem at `i007e` (digit string `07`). -/
theorem bdecode_accepts_leading_zero_witness :
    bdecodeTop (105 :: 48 :: [48, 55] ++ [101]) =
      .ok (.int (digitsVal [48, 55]), List.length [48, 55] + 3) :=
  bdecode_accepts_leading_zero [48, 55] (by decide) (by decide)

theorem get?_append_len (a b : List Nat) : (a ++ b).get? a.length = b.get? 0 := by
  induction a with
  | nil => rfl
  | cons c r ih => simpa using ih

theorem get?_replicate_append (p x : Nat) (b : List Nat) :
    (List.replicate p x ++ b).get? p = b.get? 0 := by
  have h := get?_append_len (List.replicate p x) b
  simpa using h

theorem drop_replicate_append (p x : Nat) (b : List Nat) :
    (List.replicate p x ++ b).drop p = b := by
  have h := List.drop_left (List.replicate p x) b
  simpa using h

theorem nestData_length (n : Nat) : (nestData n).length = 2 * n + 3 := by
  simp [nestData]
  omega

theorem nestData_succ (n : Nat) :
    nestData (n + 1) = 108 :: (nestData n ++ [101]) := by
  unfold nestData
  rw [List.replicate_succ, List.replicate_succ']
  simp [List.append_assoc]

theorem nestData_get0 (n : Nat) (y : List Nat) :
    ∃ c, (nestData n ++ y).get? 0 = some c ∧ c ≠ 101 := by
  cases n with
  | zero => exact ⟨105, by simp [nestData], by decide⟩
  | succ m => exact ⟨108, by rw [nestData_succ]; rfl, by decide⟩

/-- Decoding a depth-`n` nesting embedded after `p` already-consumed list
openers: the cursor-based decoder needs no depth ceiling, only enough fuel
for the call tree, which grows linearly in `n`. -/
theorem nest_decode (n : Nat) : ∀ (p fuel : Nat) (tail : List Nat),
    2 * n + 2 ≤ fuel →
    bdecode fuel (List.replicate p 108 ++ (nestData n ++ tail)) p =
      .ok (nestVal n, p + (2 * n + 3)) := by
  induction n with
  | zero =>
    intro p fuel tail hf
    obtain ⟨f, rfl⟩ : ∃ f, fuel = f + 1 := ⟨fuel - 1, by omega⟩
    have hdrop : (List.replicate p 108 ++ (nestData 0 ++ tail)).drop (p + 1) =
        48 :: 101 :: tail := by
      rw [← List.drop_drop]
      rw [drop_replicate_append]
      rfl
    have h105 : (List.replicate p 108 ++ (nestData 0 ++ tail)).get? p =
        some 105 := by
      rw [get?_replicate_append]
      rfl
    have hidx : indexFrom 101 (List.replicate p 108 ++ (nestData 0 ++ tail))
        (p + 1) = some (p + 2) := by
      unfold indexFrom
      rw [hdrop]
      simp [findIdxFrom]
      omega
    have hsl : sliceL (List.replicate p 108 ++ (nestData 0 ++ tail)) (p + 1)
        (p + 2) = [48] := by
      unfold sliceL
      rw [hdrop]
      rw [show p + 2 - (p + 1) = 1 from by omega]
      rfl
    rw [bdecode]
    simp only [h105]
    rw [if_pos trivial]
    simp only [hidx, hsl]
    rfl
  | succ n ih =>
    intro p fuel tail hf
    obtain ⟨f, rfl⟩ : ∃ f, fuel = f + 1 := ⟨fuel - 1, by omega⟩
    have hshape : List.replicate p 108 ++ (nestData (n + 1) ++ tail) =
        List.replicate (p + 1) 108 ++ (nestData n ++ (101 :: tail)) := by
      simp [nestData_succ, List.replicate_succ', List.append_assoc]
    rw [hshape]
    rw [bdecode]
    have h108 : (List.replicate (p + 1) 108 ++
        (nestData n ++ (101 :: tail))).get? p = some 108 := by
      rw [show List.replicate (p + 1) 108 ++ (nestData n ++ (101 :: tail)) =
        List.replicate p 108 ++ (108 :: (nestData n ++ (101 :: tail))) from by
          simp [List.replicate_succ', List.append_assoc]]
      rw [get?_replicate_append]
      rfl
    simp only [h108, show ((108 : Nat) = 105) = False from by decide,
      show ((108 : Nat) = 108) = True from by decide, if_false, if_true]
    obtain ⟨g, rfl⟩ : ∃ g, f = g + 1 := ⟨f - 1, by omega⟩
    rw [bdecodeList]
    obtain ⟨c, hc, hcne⟩ := nestData_get0 n (101 :: tail)
    have hne : ¬((List.replicate (p + 1) 108 ++
        (nestData n ++ (101 :: tail))).get? (p + 1) = some 101) := by
      rw [get?_replicate_append, hc]
      simp [hcne]
    rw [if_neg hne]
    have hin := ih (p + 1) g (101 :: tail) (by omega)
    simp only [hin]
    obtain ⟨q, rfl⟩ : ∃ q, g = q + 1 := ⟨g - 1, by omega⟩
    rw [bdecodeList]
    have hclose : (List.replicate (p + 1) 108 ++
        (nestData n ++ (101 :: tail))).get? (p + 1 + (2 * n + 3)) =
        some 101 := by
      rw [show List.replicate (p + 1) 108 ++ (nestData n ++ (101 :: tail)) =
        (List.replicate (p + 1) 108 ++ nestData n) ++ (101 :: tail) from by
          simp [List.append_assoc]]
      rw [show p + 1 + (2 * n + 3) =
        (List.replicate (p + 1) 108 ++ nestData n).length from by
          simp [nestData_length]]
      rw [get?_append_len]
      rfl
    rw [if_pos hclose]
    have harith : p + 1 + (2 * n + 3) + 1 = p + (2 * (n + 1) + 3) := by omega
    rw [harith]
    simp [nestVal]

/-- C7 (counterexample): a nesting of depth 1001 — beyond the claimed
ceiling on the order of 1000 — decodes successfully instead of failing. -/
theorem bdecode_depth_1001_cex :
    bdecodeTop (nestData 1001) = .ok (nestVal 1001, 2005) := by
  unfold bdecodeTop
  have h := nest_decode 1001 0 (2 * (nestData 1001).length + 2) []
    (by rw [nestData_length]; omega)
  simp only [List.replicate, List.nil_append, List.append_nil] at h
  rw [h]

/-- C7 (amended): `bdecode` enforces no nesting-depth ceiling at all: for
every depth `n`, the fully nested list input decodes successfully (given
the linear fuel the embedding allots), rather than failing at any bound.
(In CPython the recursion would instead hit the interpreter's own
recursion limit as an uncaught `RecursionError`; the program itself
imposes no ceiling and raises no FormatError.) -/
theorem bdecode_no_depth_ceiling (n : Nat) :
    bdecodeTop (nestData n) = .ok (nestVal n, 2 * n + 3) := by
  unfold bdecodeTop
  have h := nest_decode n 0 (2 * (nestData n).length + 2) []
    (by rw [nestData_length]; omega)
  simp only [List.replicate, List.nil_append, List.append_nil] at h
  rw [h]
  norm_num

theorem normChars_single (c : Nat) : normChars [c] = specCharAmended c := by
  show List.map punctToSpace
      (replaceByte 8217 [] (replaceByte 39 []
        (replaceByte 43 andW (replaceByte 38 andW [pyLower c])))) =
    specCharAmended c
  unfold specCharAmended
  by_cases h38 : pyLower c = 38
  · rw [show replaceByte 38 andW [pyLower c] = andW from by
      simp [replaceByte, h38]]
    rw [h38]
    decide
  · rw [show replaceByte 38 andW [pyLower c] = [pyLower c] from by
      simp [replaceByte, h38]]
    by_cases h43 : pyLower c = 43
    · rw [show replaceByte 43 andW [pyLower c] = andW from by
        simp [replaceByte, h43]]
      rw [h43]
      decide
    · rw [show replaceByte 43 andW [pyLower c] = [pyLower c] from by
        simp [replaceByte, h43]]
      by_cases h39 : pyLower c = 39
      · rw [show replaceByte 39 [] [pyLower c] = [] from by
          simp [replaceByte, h39]]
        rw [h39]
        decide
      · rw [show replaceByte 39 [] [pyLower c] = [pyLower c] from by
          simp [replaceByte, h39]]
        by_cases h8217 : pyLower c = 8217
        · rw [show replaceByte 8217 [] [pyLower c] = [] from by
            simp [replaceByte, h8217]]
          rw [h8217]
          decide
        · rw [show replaceByte 8217 [] [pyLower c] = [pyLower c] from by
            simp [replaceByte, h8217]]
          simp [punctToSpace, h38, h43, h39, h8217]
          split <;> rfl

theorem normChars_append (u v : List Nat) :
    normChars (u ++ v) = normChars u ++ normChars v := by
  simp [normChars, replaceByte]

theorem normChars_eq_flatMap (s : List Nat) :
    normChars s = s.flatMap specCharAmended := by
  induction s with
  | nil => rfl
  | cons c r ih =>
    have h : normChars (c :: r) = normChars [c] ++ normChars r := by
      have h2 := normChars_append [c] r
      simpa using h2
    rw [h, normChars_single, ih]
    simp [List.flatMap_cons]

/-- C4 (counterexample): the underscore is a `\w` character, so
`_normalize` keeps it, while the claimed pipeline (every non-alphanumeric
non-space character becomes a space) would turn it into a space. -/
theorem normalize_underscore_cex :
    normalize (strL "a_b") = strL "a_b" ∧
    specNormalizeOrig (strL "a_b") = strL "a b" := by decide

/-- C4 (amended): `_normalize` is exactly the spec's composition —
lowercase, then `&`/`+` → "and", then apostrophe removal, then replacing
every remaining character that is neither a word character (alphanumeric
OR underscore) nor a space with a space, then collapsing whitespace runs
and trimming — with the punctuation class corrected to keep the
underscore. -/
theorem normalize_eq_spec_pipeline (s : List Nat) :
    normalize s = specNormalizeAmended s := by
  unfold normalize specNormalizeAmended
  rw [normChars_eq_flatMap]

theorem okRun_tail {a : Nat} {xs : List Nat} (h : okRun (a :: xs) = true) :
    okRun xs = true := by
  cases xs with
  | nil => rfl
  | cons b r =>
    simp only [okRun, Bool.and_eq_true] at h
    exact h.2

theorem okRun_cons_nonspace {c : Nat} {xs : List Nat}
    (hc : isSpaceB c = false) (hx : okRun xs = true) :
    okRun (c :: xs) = true := by
  cases xs with
  | nil => rfl
  | cons b r => simp [okRun, hc, hx]

theorem collapseGo_mem {c : Nat} {l : List Nat} : ∀ {b : Bool},
    c ∈ collapseGo b l → c = 32 ∨ (c ∈ l ∧ isSpaceB c = false) := by
  induction l with
  | nil => intro b h; simp [collapseGo] at h
  | cons d r ih =>
    intro b h
    by_cases hd : isSpaceB d
    · rw [collapseGo, if_pos hd] at h
      cases b with
      | true =>
        rcases ih h with h32 | ⟨hm, hs⟩
        · exact Or.inl h32
        · exact Or.inr ⟨List.mem_cons_of_mem _ hm, hs⟩
      | false =>
        rcases List.mem_cons.1 h with h32 | h2
        · exact Or.inl h32
        · rcases ih h2 with h32 | ⟨hm, hs⟩
          · exact Or.inl h32
          · exact Or.inr ⟨List.mem_cons_of_mem _ hm, hs⟩
    · rw [collapseGo, if_neg hd] at h
      rcases List.mem_cons.1 h with hcd | h2
      · exact Or.inr ⟨hcd ▸ List.mem_cons_self d r, by rw [hcd]; simpa using hd⟩
      · rcases ih h2 with h32 | ⟨hm, hs⟩
        · exact Or.inl h32
        · exact Or.inr ⟨List.mem_cons_of_mem _ hm, hs⟩

theorem collapseGo_okRun (l : List Nat) :
    okRun (collapseGo false l) = true ∧ okRun (collapseGo true l) = true ∧
    (collapseGo true l = [] ∨
      ∃ d r, collapseGo true l = d :: r ∧ isSpaceB d = false) := by
  induction l with
  | nil => exact ⟨rfl, rfl, Or.inl rfl⟩
  | cons c r ih =>
    obtain ⟨ih1, ih2, ih3⟩ := ih
    by_cases hc : isSpaceB c
    · refine ⟨?_, ?_, ?_⟩
      · rw [collapseGo, if_pos hc]
        rcases ih3 with h0 | ⟨d, r', hd, hds⟩
        · rw [h0]; rfl
        · rw [hd]
          rw [hd] at ih2
          simp [okRun, hds, ih2]
      · rw [collapseGo, if_pos hc]; exact ih2
      · rw [collapseGo, if_pos hc]; exact ih3
    · refine ⟨?_, ?_, ?_⟩
      · rw [collapseGo, if_neg hc]
        exact okRun_cons_nonspace (by simpa using hc) ih1
      · rw [collapseGo, if_neg hc]
        exact okRun_cons_nonspace (by simpa using hc) ih1
      · rw [collapseGo, if_neg hc]
        exact Or.inr ⟨c, _, rfl, by simpa using hc⟩

theorem collapseGo_true_of_head_nonspace {d : Nat} {x : List Nat}
    (hd : isSpaceB d = false) :
    collapseGo true (d :: x) = collapseGo false (d :: x) := by
  simp [collapseGo, hd]

theorem collapseGo_id : ∀ l : List Nat, okRun l = true →
    (∀ x ∈ l, isSpaceB x = true → x = 32) → collapseGo false l = l := by
  intro l
  induction l with
  | nil => intro _ _; rfl
  | cons c r ih =>
    intro hok hsp
    by_cases hc : isSpaceB c
    · have hc32 : c = 32 := hsp c (List.mem_cons_self _ _) hc
      rw [collapseGo, if_pos hc]
      cases r with
      | nil => rw [hc32]; rfl
      | cons d r' =>
        have hd : isSpaceB d = false := by
          have := hok
          simp [okRun, hc] at this
          simpa using this.1
        rw [collapseGo_true_of_head_nonspace hd]
        rw [ih (okRun_tail hok)
          (fun x hx => hsp x (List.mem_cons_of_mem _ hx))]
        rw [hc32]
        simp
    · rw [collapseGo, if_neg hc]
      rw [ih (okRun_tail hok) (fun x hx => hsp x (List.mem_cons_of_mem _ hx))]

theorem okRun_append_left : ∀ {l t : List Nat},
    okRun (l ++ t) = true → okRun l = true := by
  intro l
  induction l with
  | nil => intro t _; rfl
  | cons a xs ih =>
    intro t h
    cases xs with
    | nil => rfl
    | cons b xs' =>
      have h' : okRun ((a :: b :: xs') ++ t) = true := h
      simp only [List.cons_append, okRun, Bool.and_eq_true] at h'
      have h2 : okRun ((b :: xs') ++ t) = true := h'.2
      simp only [okRun, Bool.and_eq_true]
      exact ⟨h'.1, ih h2⟩

theorem okRun_prefix_mono {l₁ l₂ : List Nat} (h : List.IsPrefix l₁ l₂)
    (h2 : okRun l₂ = true) : okRun l₁ = true := by
  obtain ⟨t, rfl⟩ := h
  exact okRun_append_left h2

theorem okRun_dropWhile {p : Nat → Bool} : ∀ {l : List Nat},
    okRun l = true → okRun (l.dropWhile p) = true := by
  intro l
  induction l with
  | nil => intro _; rfl
  | cons c r ih =>
    intro h
    rw [List.dropWhile_cons]
    by_cases hp : p c
    · rw [if_pos hp]
      exact ih (okRun_tail h)
    · rw [if_neg hp]
      exact h

theorem dropTrail_prefix_self (l : List Nat) : List.IsPrefix (dropTrail l) l := by
  induction l with
  | nil => exact ⟨[], rfl⟩
  | cons c r ih =>
    cases h : dropTrail r with
    | nil =>
      simp only [dropTrail, h]
      by_cases hc : isSpaceB c
      · rw [if_pos hc]; exact ⟨c :: r, rfl⟩
      · rw [if_neg hc]; exact ⟨r, rfl⟩
    | cons d t =>
      simp only [dropTrail, h]
      rw [h] at ih
      exact (List.prefix_cons_inj c).2 ih

theorem dropTrail_head? (l : List Nat) :
    dropTrail l = [] ∨ (dropTrail l).head? = l.head? := by
  cases l with
  | nil => exact Or.inl rfl
  | cons c r =>
    cases h : dropTrail r with
    | nil =>
      simp only [dropTrail, h]
      by_cases hc : isSpaceB c
      · rw [if_pos hc]; exact Or.inl rfl
      · rw [if_neg hc]; exact Or.inr rfl
    | cons d t =>
      simp only [dropTrail, h]
      exact Or.inr rfl

theorem dropTrail_getLast_nonspace : ∀ l : List Nat,
    dropTrail l = [] ∨
    ∃ x, (dropTrail l).getLast? = some x ∧ isSpaceB x = false := by
  intro l
  induction l with
  | nil => exact Or.inl rfl
  | cons c r ih =>
    cases h : dropTrail r with
    | nil =>
      simp only [dropTrail, h]
      by_cases hc : isSpaceB c
      · rw [if_pos hc]; exact Or.inl rfl
      · rw [if_neg hc]
        exact Or.inr ⟨c, rfl, by simpa using hc⟩
    | cons d t =>
      simp only [dropTrail, h]
      rcases ih with h0 | ⟨x, hx, hxs⟩
      · rw [h0] at h; cases h
      · rw [h] at hx
        exact Or.inr ⟨x, by rw [List.getLast?_cons_cons]; exact hx, hxs⟩

theorem dropTrail_eq_self_of_last : ∀ l : List Nat,
    (∀ x, l.getLast? = some x → isSpaceB x = false) → dropTrail l = l := by
  intro l
  induction l with
  | nil => intro _; rfl
  | cons c r ih =>
    intro h
    cases r with
    | nil =>
      have hc : isSpaceB c = false := h c rfl
      simp [dropTrail, hc]
    | cons d r' =>
      have hr : dropTrail (d :: r') = d :: r' :=
        ih (fun x hx => h x (by rw [List.getLast?_cons_cons]; exact hx))
      conv_lhs => rw [dropTrail]
      rw [hr]

theorem dropWhile_eq_self_of_head {p : Nat → Bool} {l : List Nat}
    (h : ∀ x, l.head? = some x → p x = false) : l.dropWhile p = l := by
  cases l with
  | nil => rfl
  | cons c r =>
    rw [List.dropWhile_cons, if_neg (by simp [h c rfl])]

theorem pyStrip_eq_self_of {l : List Nat}
    (hh : ∀ x, l.head? = some x → isSpaceB x = false)
    (hl : ∀ x, l.getLast? = some x → isSpaceB x = false) :
    pyStrip l = l := by
  unfold pyStrip
  rw [dropWhile_eq_self_of_head hh]
  exact dropTrail_eq_self_of_last l hl

theorem pyLower_not_upper (x : Nat) :
    ¬(65 ≤ pyLower x ∧ pyLower x ≤ 90) := by
  unfold pyLower
  split_ifs with h <;> omega

theorem goodChar_pyLower {c : Nat} (h : goodChar c = true) :
    pyLower c = c := by
  simp only [goodChar, Bool.or_eq_true, Bool.and_eq_true, beq_iff_eq,
    Bool.not_eq_true', isWordB, isDigitB, Bool.and_eq_false_iff,
    decide_eq_true_eq, decide_eq_false_iff_not] at h
  unfold pyLower
  split_ifs with hif
  · exfalso
    rcases h with ⟨_, hu⟩ | h32 <;> omega
  · rfl

theorem goodChar_ne_special {c : Nat} (h : goodChar c = true) :
    c ≠ 38 ∧ c ≠ 43 ∧ c ≠ 39 ∧ c ≠ 8217 := by
  simp only [goodChar, Bool.or_eq_true, Bool.and_eq_true, beq_iff_eq,
    Bool.not_eq_true', isWordB, isDigitB, Bool.and_eq_false_iff,
    decide_eq_true_eq, decide_eq_false_iff_not] at h
  rcases h with ⟨hw, _⟩ | h32
  all_goals exact ⟨by omega, by omega, by omega, by omega⟩

theorem goodChar_punct {c : Nat} (h : goodChar c = true) :
    punctToSpace c = c := by
  simp only [goodChar, Bool.or_eq_true, Bool.and_eq_true, beq_iff_eq,
    Bool.not_eq_true'] at h
  unfold punctToSpace
  rcases h with ⟨hw, _⟩ | h32
  · rw [if_pos (by simp [hw])]
  · rw [h32]
    decide

theorem goodChar_space32 {c : Nat} (h : goodChar c = true)
    (hs : isSpaceB c = true) : c = 32 := by
  simp only [goodChar, Bool.or_eq_true, Bool.and_eq_true, beq_iff_eq,
    Bool.not_eq_true', isWordB, isDigitB, Bool.and_eq_false_iff,
    decide_eq_true_eq, decide_eq_false_iff_not] at h
  simp only [isSpaceB, Bool.or_eq_true, Bool.and_eq_true, beq_iff_eq,
    decide_eq_true_eq] at hs
  rcases h with ⟨hw, _⟩ | h32 <;> omega

theorem map_id_of {f : Nat → Nat} : ∀ {l : List Nat},
    (∀ x ∈ l, f x = x) → l.map f = l := by
  intro l
  induction l with
  | nil => intro _; rfl
  | cons c r ih =>
    intro h
    simp only [List.map_cons]
    rw [h c (List.mem_cons_self _ _),
      ih (fun x hx => h x (List.mem_cons_of_mem _ hx))]

theorem replaceByte_id_of {old : Nat} {rep : List Nat} : ∀ {l : List Nat},
    (∀ x ∈ l, x ≠ old) → replaceByte old rep l = l := by
  intro l
  induction l with
  | nil => intro _; rfl
  | cons c r ih =>
    intro h
    unfold replaceByte
    rw [List.flatMap_cons, if_neg (h c (List.mem_cons_self _ _))]
    show c :: replaceByte old rep r = c :: r
    rw [ih (fun x hx => h x (List.mem_cons_of_mem _ hx))]

theorem specCharAmended_mem {a c : Nat} (h : c ∈ specCharAmended a) :
    (isWordB c = true ∧ (65 ≤ c && c ≤ 90) = false) ∨ isSpaceB c = true := by
  simp only [specCharAmended] at h
  split_ifs at h with h1 h2 h3
  · simp only [andW, List.mem_cons, List.not_mem_nil, or_false] at h
    rcases h with h | h | h <;> subst h <;> exact Or.inl (by decide)
  · simp at h
  · simp only [List.mem_singleton] at h
    subst h
    simp only [Bool.or_eq_true] at h3
    rcases h3 with hw | hs
    · refine Or.inl ⟨hw, ?_⟩
      have := pyLower_not_upper a
      simp only [Bool.and_eq_false_iff, decide_eq_false_iff_not]
      omega
    · exact Or.inr hs
  · simp only [List.mem_singleton] at h
    subst h
    exact Or.inr (by decide)

theorem normChars_mem {s : List Nat} {c : Nat} (h : c ∈ normChars s) :
    (isWordB c = true ∧ (65 ≤ c && c ≤ 90) = false) ∨ isSpaceB c = true := by
  rw [normChars_eq_flatMap] at h
  rcases List.mem_flatMap.1 h with ⟨a, _, hc⟩
  exact specCharAmended_mem hc

theorem head?_dropWhile {p : Nat → Bool} : ∀ {l : List Nat} {x : Nat},
    (l.dropWhile p).head? = some x → p x = false := by
  intro l
  induction l with
  | nil => intro x hx; cases hx
  | cons c r ih =>
    intro x hx
    rw [List.dropWhile_cons] at hx
    by_cases hp : p c
    · rw [if_pos hp] at hx
      exact ih hx
    · rw [if_neg hp] at hx
      cases hx
      simpa using hp

theorem normalize_mem_good (s : List Nat) :
    ∀ c ∈ normalize s, goodChar c = true := by
  intro c hc
  unfold normalize pyStrip at hc
  have h1 : c ∈ (collapseWs (normChars s)).dropWhile isSpaceB :=
    ((dropTrail_prefix_self _).sublist).mem hc
  have h2 : c ∈ collapseWs (normChars s) := (List.dropWhile_sublist _).mem h1
  rcases collapseGo_mem h2 with h32 | ⟨hm, hns⟩
  · simp [goodChar, h32]
  · rcases normChars_mem hm with ⟨hw, hu⟩ | hsp
    · simp [goodChar, hw, hu]
    · exact absurd hsp (by simp [hns])

theorem normalize_okRun (s : List Nat) : okRun (normalize s) = true := by
  unfold normalize pyStrip
  apply okRun_prefix_mono (dropTrail_prefix_self _)
  apply okRun_dropWhile
  exact (collapseGo_okRun _).1

theorem normalize_head (s : List Nat) :
    ∀ x, (normalize s).head? = some x → isSpaceB x = false := by
  intro x hx
  unfold normalize pyStrip at hx
  rcases dropTrail_head? ((collapseWs (normChars s)).dropWhile isSpaceB)
    with h0 | hh
  · rw [h0] at hx; cases hx
  · rw [hh] at hx
    exact head?_dropWhile hx

theorem normalize_last (s : List Nat) :
    ∀ x, (normalize s).getLast? = some x → isSpaceB x = false := by
  intro x hx
  unfold normalize pyStrip at hx
  rcases dropTrail_getLast_nonspace
    ((collapseWs (normChars s)).dropWhile isSpaceB) with h0 | ⟨y, hy, hys⟩
  · rw [h0] at hx; cases hx
  · rw [hy] at hx
    cases hx
    exact hys

theorem normalize_idem (s : List Nat) :
    normalize (normalize s) = normalize s := by
  have hg := normalize_mem_good s
  have h1 : normChars (normalize s) = normalize s := by
    unfold normChars
    rw [map_id_of (fun x hx => goodChar_pyLower (hg x hx))]
    rw [replaceByte_id_of (fun x hx => (goodChar_ne_special (hg x hx)).1)]
    rw [replaceByte_id_of (fun x hx => (goodChar_ne_special (hg x hx)).2.1)]
    rw [replaceByte_id_of
      (fun x hx => (goodChar_ne_special (hg x hx)).2.2.1)]
    rw [replaceByte_id_of
      (fun x hx => (goodChar_ne_special (hg x hx)).2.2.2)]
    exact map_id_of (fun x hx => goodChar_punct (hg x hx))
  have h2 : collapseWs (normalize s) = normalize s :=
    collapseGo_id _ (normalize_okRun s)
      (fun x hx hsx => goodChar_space32 (hg x hx) hsx)
  have h3 : pyStrip (normalize s) = normalize s :=
    pyStrip_eq_self_of (normalize_head s) (normalize_last s)
  show pyStrip (collapseWs (normChars (normalize s))) = normalize s
  rw [h1, h2, h3]

theorem collapseGo_cons_space_false {c : Nat} {r : List Nat}
    (hc : isSpaceB c = true) :
    collapseGo false (c :: r) = 32 :: collapseGo true r := by
  rw [collapseGo, if_pos hc]
  simp

theorem collapseGo_cons_space_true {c : Nat} {r : List Nat}
    (hc : isSpaceB c = true) :
    collapseGo true (c :: r) = collapseGo true r := by
  rw [collapseGo, if_pos hc]
  simp

theorem collapseGo_cons_nonspace' {c : Nat} {r : List Nat} {flag : Bool}
    (hc : isSpaceB c = false) :
    collapseGo flag (c :: r) = c :: collapseGo false r := by
  rw [collapseGo, if_neg (by simp [hc])]

theorem dw_collapse_flag (l : List Nat) :
    (collapseGo true l).dropWhile isSpaceB =
    (collapseGo false l).dropWhile isSpaceB := by
  cases l with
  | nil => rfl
  | cons c r =>
    by_cases hc : isSpaceB c
    · rw [collapseGo_cons_space_true hc, collapseGo_cons_space_false hc]
      rw [List.dropWhile_cons, if_pos (show isSpaceB 32 = true from rfl)]
    · rw [collapseGo_cons_nonspace' (by simpa using hc),
        collapseGo_cons_nonspace' (by simpa using hc)]

theorem normChars_cons32 (s : List Nat) :
    normChars (32 :: s) = 32 :: normChars s := by
  rw [normChars_eq_flatMap, normChars_eq_flatMap, List.flatMap_cons,
    show specCharAmended 32 = [32] from by decide]
  rfl

theorem normChars_append32 (s : List Nat) :
    normChars (s ++ [32]) = normChars s ++ [32] := by
  rw [normChars_append, show normChars [32] = [32] from by decide]

theorem collapseGo_double : ∀ (a : List Nat) (flag : Bool) (b : List Nat),
    collapseGo flag (a ++ 32 :: 32 :: b) = collapseGo flag (a ++ 32 :: b) := by
  intro a
  induction a with
  | nil =>
    intro flag b
    have h32 : isSpaceB 32 = true := rfl
    cases flag
    · show collapseGo false (32 :: 32 :: b) = collapseGo false (32 :: b)
      rw [collapseGo_cons_space_false h32, collapseGo_cons_space_true h32,
        collapseGo_cons_space_false h32]
    · show collapseGo true (32 :: 32 :: b) = collapseGo true (32 :: b)
      rw [collapseGo_cons_space_true h32]
  | cons c a' ih =>
    intro flag b
    show collapseGo flag (c :: (a' ++ 32 :: 32 :: b)) =
      collapseGo flag (c :: (a' ++ 32 :: b))
    by_cases hc : isSpaceB c
    · cases flag
      · rw [collapseGo_cons_space_false hc, collapseGo_cons_space_false hc,
          ih]
      · rw [collapseGo_cons_space_true hc, collapseGo_cons_space_true hc,
          ih]
    · rw [collapseGo_cons_nonspace' (by simpa using hc),
        collapseGo_cons_nonspace' (by simpa using hc), ih]

theorem collapseGo_append32 : ∀ (w : List Nat) (flag : Bool),
    collapseGo flag (w ++ [32]) = collapseGo flag w ++ [32] ∨
    collapseGo flag (w ++ [32]) = collapseGo flag w := by
  intro w
  induction w with
  | nil =>
    intro flag
    cases flag
    · exact Or.inl (by
        show collapseGo false [32] = collapseGo false [] ++ [32]
        rw [collapseGo_cons_space_false (show isSpaceB 32 = true from rfl)]
        rfl)
    · exact Or.inr (by
        show collapseGo true [32] = collapseGo true []
        rw [collapseGo_cons_space_true (show isSpaceB 32 = true from rfl)])
  | cons c w' ih =>
    intro flag
    by_cases hc : isSpaceB c
    · cases flag
      · rcases ih true with h | h
        · refine Or.inl ?_
          show collapseGo false (c :: (w' ++ [32])) =
            collapseGo false (c :: w') ++ [32]
          rw [collapseGo_cons_space_false hc,
            collapseGo_cons_space_false hc, h]
          rfl
        · refine Or.inr ?_
          show collapseGo false (c :: (w' ++ [32])) =
            collapseGo false (c :: w')
          rw [collapseGo_cons_space_false hc,
            collapseGo_cons_space_false hc, h]
      · rcases ih true with h | h
        · refine Or.inl ?_
          show collapseGo true (c :: (w' ++ [32])) =
            collapseGo true (c :: w') ++ [32]
          rw [collapseGo_cons_space_true hc,
            collapseGo_cons_space_true hc, h]
        · refine Or.inr ?_
          show collapseGo true (c :: (w' ++ [32])) =
            collapseGo true (c :: w')
          rw [collapseGo_cons_space_true hc,
            collapseGo_cons_space_true hc, h]
    · have hc' : isSpaceB c = false := by simpa using hc
      rcases ih false with h | h
      · refine Or.inl ?_
        show collapseGo flag (c :: (w' ++ [32])) =
          collapseGo flag (c :: w') ++ [32]
        rw [collapseGo_cons_nonspace' hc', collapseGo_cons_nonspace' hc', h]
        rfl
      · refine Or.inr ?_
        show collapseGo flag (c :: (w' ++ [32])) =
          collapseGo flag (c :: w')
        rw [collapseGo_cons_nonspace' hc', collapseGo_cons_nonspace' hc', h]

theorem dropWhile_append32 : ∀ x : List Nat,
    (x ++ [32]).dropWhile isSpaceB =
      if x.dropWhile isSpaceB = [] then []
      else x.dropWhile isSpaceB ++ [32] := by
  intro x
  induction x with
  | nil => rfl
  | cons c x' ih =>
    show ((c :: (x' ++ [32])).dropWhile isSpaceB) = _
    by_cases hc : isSpaceB c
    · rw [List.dropWhile_cons, if_pos hc, ih, List.dropWhile_cons,
        if_pos hc]
    · rw [List.dropWhile_cons, if_neg hc, List.dropWhile_cons, if_neg hc]
      rw [if_neg (by simp)]
      rfl

theorem dropTrail_append32 : ∀ y : List Nat,
    dropTrail (y ++ [32]) = dropTrail y := by
  intro y
  induction y with
  | nil => rfl
  | cons c y' ih =>
    show dropTrail (c :: (y' ++ [32])) = dropTrail (c :: y')
    conv_lhs => rw [dropTrail]
    conv_rhs => rw [dropTrail]
    rw [ih]

theorem pyStrip_append32 (x : List Nat) : pyStrip (x ++ [32]) = pyStrip x := by
  unfold pyStrip
  rw [dropWhile_append32]
  by_cases h : x.dropWhile isSpaceB = []
  · rw [if_pos h, h]
  · rw [if_neg h]
    exact dropTrail_append32 _

theorem normalize_cons32 (s : List Nat) : normalize (32 :: s) = normalize s := by
  unfold normalize
  rw [normChars_cons32]
  show pyStrip (collapseGo false (32 :: normChars s)) =
    pyStrip (collapseGo false (normChars s))
  rw [collapseGo_cons_space_false (show isSpaceB 32 = true from rfl)]
  unfold pyStrip
  rw [show (32 :: collapseGo true (normChars s)).dropWhile isSpaceB =
    (collapseGo true (normChars s)).dropWhile isSpaceB from by
      rw [List.dropWhile_cons, if_pos (show isSpaceB 32 = true from rfl)]]
  rw [dw_collapse_flag]

theorem normalize_append32 (s : List Nat) :
    normalize (s ++ [32]) = normalize s := by
  unfold normalize
  rw [normChars_append32]
  rcases collapseGo_append32 (normChars s) false with h | h
  · show pyStrip (collapseGo false (normChars s ++ [32])) = _
    rw [h, pyStrip_append32]
    rfl
  · show pyStrip (collapseGo false (normChars s ++ [32])) = _
    rw [h]
    rfl

theorem normalize_double32 (u v : List Nat) :
    normalize (u ++ 32 :: 32 :: v) = normalize (u ++ 32 :: v) := by
  unfold normalize
  rw [normChars_append, normChars_append, normChars_cons32,
    normChars_cons32]
  show pyStrip (collapseGo false
      (normChars u ++ 32 :: 32 :: normChars v)) =
    pyStrip (collapseGo false (normChars u ++ 32 :: normChars v))
  rw [collapseGo_double]

/-- C9: `_normalize` is idempotent, case-invariant (two inputs equal after
lowercasing normalize identically), and whitespace-invariant: a space
padded at either end, or an extra space inserted into an existing
whitespace run, never changes the result. -/
theorem normalize_invariants :
    (∀ s : List Nat, normalize (normalize s) = normalize s) ∧
    (∀ s t : List Nat, s.map pyLower = t.map pyLower →
      normalize s = normalize t) ∧
    (∀ s : List Nat, normalize (32 :: s) = normalize s) ∧
    (∀ s : List Nat, normalize (s ++ [32]) = normalize s) ∧
    (∀ u v : List Nat, normalize (u ++ 32 :: 32 :: v) =
      normalize (u ++ 32 :: v)) :=
  ⟨normalize_idem,
   fun s t h => by unfold normalize normChars; rw [h],
   normalize_cons32, normalize_append32, normalize_double32⟩

/-- C9 witness: each conjunct applied at concrete inputs. -/
theorem normalize_invariants_witness :
    normalize (normalize (strL "The  Matrix!")) =
      normalize (strL "The  Matrix!") ∧
    normalize (strL "THE matrix") = normalize (strL "the MATRIX") ∧
    normalize (32 :: strL "abc") = normalize (strL "abc") ∧
    normalize (strL "abc" ++ [32]) = normalize (strL "abc") ∧
    normalize (strL "a" ++ 32 :: 32 :: strL "b") =
      normalize (strL "a" ++ 32 :: strL "b") :=
  ⟨normalize_invariants.1 _,
   normalize_invariants.2.1 _ _ (by decide),
   normalize_invariants.2.2.1 _,
   normalize_invariants.2.2.2.1 _,
   normalize_invariants.2.2.2.2 _ _⟩

end IMB
